import Mathlib

/-!
Shallow embedding of the `lrita/log` logging library (Go), covering:

* the severity levels (`level.go`);
* the hierarchical logger configuration store: per-node immutable `meta`
  snapshots (level, per-level appender / format / rate-limit maps, detach
  bit mask, call depth), the copy-and-publish mutation operations
  `setLevelInternal`, `setAppenderInternal`, `setFormatInternal`,
  `setRatelimitInternal`, their cascade into children, and `New` (`logger.go`);
* the emission gate of `dolog` (level check, appender lookup, rate-limit
  token take);
* the asynchronous double-buffered writer `AIO` (`aio.go`): `Write`,
  `Flush`, `Reset`, and the worker `loop` with its sticky fault cell.

Go maps indexed by `Level` are embedded as functions `Level → Option α`
(lookup of a missing key is `none`); a map literally copied entry by entry
becomes the same function.  The worker goroutine of the asynchronous writer
is modelled synchronously: each enqueued flush request is processed by the
worker body at enqueue time, which is one admissible scheduling of the
FIFO request channel consumed by the single worker.
-/

namespace LogSpec

/-- The six severity levels, in declaration order of the Go `iota` block:
FATAL = 0, ERROR = 1, INFO = 2, WARN = 3, DEBUG = 4, TRACE = 5. -/
inductive Level where
  | FATAL
  | ERROR
  | INFO
  | WARN
  | DEBUG
  | TRACE
deriving DecidableEq, Repr

/-- Numeric value of a level, as assigned by `iota` in the Go source. -/
def Level.toNat : Level → Nat
  | .FATAL => 0
  | .ERROR => 1
  | .INFO => 2
  | .WARN => 3
  | .DEBUG => 4
  | .TRACE => 5

/-- All levels, i.e. the domain of the Go map `LevelsToString`. -/
def allLevels : List Level :=
  [.FATAL, .ERROR, .INFO, .WARN, .DEBUG, .TRACE]

/-- Appenders (sinks) are opaque to the configuration store; we identify an
appender by a numeric handle. -/
abbrev Appender := Nat

/-- Modelled from the spec: the external `ratelimit.Bucket` dependency (not
part of this repository).  Per the spec, a record is emitted only when one
token can be taken from the bucket; `avail` is the number of tokens
currently available.  Time-based refill is not modelled: back-to-back
emissions see no refill. -/
structure Bucket where
  avail : Nat
deriving DecidableEq, Repr

/-- Modelled from the spec: `Bucket.TakeAvailable n` takes up to `n` tokens,
returning how many were actually taken together with the resulting bucket. -/
def Bucket.takeAvailable (b : Bucket) (n : Nat) : Nat × Bucket :=
  let t := min n b.avail
  (t, ⟨b.avail - t⟩)

/-- Detach bit for the level axis (`detachlvl = 1` in the Go source). -/
def detachlvl : Nat := 1
/-- Detach bit for the appender axis (`detachapp = 2`). -/
def detachapp : Nat := 2
/-- Detach bit for the format axis (`detachfmt = 4`). -/
def detachfmt : Nat := 4
/-- Detach bit for the rate-limit axis (`detachlmt = 8`). -/
def detachlmt : Nat := 8

/-- The immutable configuration snapshot of a logger node (Go `type meta`).
The Go maps `appenders`, `formats`, `limits` are embedded as functions
returning `Option`. -/
structure Meta where
  detach : Nat
  level : Level
  calldepth : Int
  appenders : Level → Option Appender
  formats : Level → Option String
  limits : Level → Option Bucket

/-- Go `meta.clone`: field-wise copy; each map is re-allocated and copied
entry by entry, which in the functional embedding yields the same lookup
function. -/
def Meta.clone (m : Meta) : Meta :=
  { detach := m.detach
    level := m.level
    calldepth := m.calldepth
    appenders := fun level => m.appenders level
    formats := fun level => m.formats level
    limits := fun level => m.limits level }

/-- The map rebuilt by `setAppenderInternal` / `setFormatInternal` /
`setRatelimitInternal`: with no explicit levels, every level of
`LevelsToString` is mapped to the new value; otherwise the old entries are
copied and the listed levels are overwritten. -/
def newMapAxis {α : Type} (old : Level → Option α) (v : α)
    (levels : List Level) : Level → Option α :=
  if levels.isEmpty then fun _ => some v
  else fun l => if l ∈ levels then some v else old l

/-- The per-node part of `setLevelInternal`: `none` models the early
`return` taken when a cascade (detach = false) meets a node whose level
axis is detached; `some m'` is the snapshot that gets published. -/
def setLevelMeta (d : Bool) (lv : Level) (m : Meta) : Option Meta :=
  if d then some { m with detach := m.detach ||| detachlvl, level := lv }
  else if m.detach &&& detachlvl ≠ 0 then none
  else some { m with level := lv }

/-- The per-node part of `setAppenderInternal` (early return on a detached
appender axis, otherwise publish the rebuilt appender map). -/
def setAppenderMeta (d : Bool) (app : Appender) (levels : List Level)
    (m : Meta) : Option Meta :=
  if d then
    some { m with detach := m.detach ||| detachapp
                  appenders := newMapAxis m.appenders app levels }
  else if m.detach &&& detachapp ≠ 0 then none
  else some { m with appenders := newMapAxis m.appenders app levels }

/-- The per-node part of `setFormatInternal`. -/
def setFormatMeta (d : Bool) (f : String) (levels : List Level)
    (m : Meta) : Option Meta :=
  if d then
    some { m with detach := m.detach ||| detachfmt
                  formats := newMapAxis m.formats f levels }
  else if m.detach &&& detachfmt ≠ 0 then none
  else some { m with formats := newMapAxis m.formats f levels }

/-- The per-node part of `setRatelimitInternal`. -/
def setRatelimitMeta (d : Bool) (b : Bucket) (levels : List Level)
    (m : Meta) : Option Meta :=
  if d then
    some { m with detach := m.detach ||| detachlmt
                  limits := newMapAxis m.limits b levels }
  else if m.detach &&& detachlmt ≠ 0 then none
  else some { m with limits := newMapAxis m.limits b levels }

/-- `SetCallDepth` copies the snapshot, sets `calldepth` and publishes:
no detach check, no cascade. -/
def setCallDepthMeta (d : Int) (m : Meta) : Meta :=
  { m with calldepth := d }

/-- A logger tree: a node's snapshot together with its children
(`logger.children`). -/
inductive LTree where
  | node (m : Meta) (children : List LTree)

/-- Snapshot at the root of a tree. -/
def LTree.meta : LTree → Meta
  | .node m _ => m

/-- Children of the root of a tree. -/
def LTree.kids : LTree → List LTree
  | .node _ cs => cs

mutual
/-- Go `(*logger).setLevelInternal`: update this node's snapshot unless a
cascade meets a detached level axis (early return — the recursion into the
children is then skipped too), then recurse into every child in cascade
mode (detach = false). -/
def setLevelInternal (d : Bool) (lv : Level) : LTree → LTree
  | .node m cs =>
    match setLevelMeta d lv m with
    | none => .node m cs
    | some m' => .node m' (setLevelKids lv cs)

/-- The `for _, child := range l.children` loop of `setLevelInternal`. -/
def setLevelKids (lv : Level) : List LTree → List LTree
  | [] => []
  | c :: cs => setLevelInternal false lv c :: setLevelKids lv cs
end

mutual
/-- Go `(*logger).setAppenderInternal`. -/
def setAppenderInternal (d : Bool) (app : Appender) (levels : List Level) :
    LTree → LTree
  | .node m cs =>
    match setAppenderMeta d app levels m with
    | none => .node m cs
    | some m' => .node m' (setAppenderKids app levels cs)

/-- The children loop of `setAppenderInternal`. -/
def setAppenderKids (app : Appender) (levels : List Level) :
    List LTree → List LTree
  | [] => []
  | c :: cs =>
    setAppenderInternal false app levels c :: setAppenderKids app levels cs
end

mutual
/-- Go `(*logger).setFormatInternal`. -/
def setFormatInternal (d : Bool) (f : String) (levels : List Level) :
    LTree → LTree
  | .node m cs =>
    match setFormatMeta d f levels m with
    | none => .node m cs
    | some m' => .node m' (setFormatKids f levels cs)

/-- The children loop of `setFormatInternal`. -/
def setFormatKids (f : String) (levels : List Level) :
    List LTree → List LTree
  | [] => []
  | c :: cs => setFormatInternal false f levels c :: setFormatKids f levels cs
end

mutual
/-- Go `(*logger).setRatelimitInternal`. -/
def setRatelimitInternal (d : Bool) (b : Bucket) (levels : List Level) :
    LTree → LTree
  | .node m cs =>
    match setRatelimitMeta d b levels m with
    | none => .node m cs
    | some m' => .node m' (setRatelimitKids b levels cs)

/-- The children loop of `setRatelimitInternal`. -/
def setRatelimitKids (b : Bucket) (levels : List Level) :
    List LTree → List LTree
  | [] => []
  | c :: cs =>
    setRatelimitInternal false b levels c :: setRatelimitKids b levels cs
end

/-- Go `(*logger).New`: the child's starting snapshot is a clone of the
parent's current snapshot with `detach` and `calldepth` zeroed. -/
def newChildMeta (m : Meta) : Meta :=
  { m.clone with detach := 0, calldepth := 0 }

/-- Go `(*logger).New` on a tree: append a fresh child (clone of the
current snapshot, detach cleared, calldepth zeroed, no children yet). -/
def newChild : LTree → LTree
  | .node m cs => .node m (cs ++ [.node (newChildMeta m) []])

/-- Subtree at a path (each step selects a child by index). -/
def LTree.sub : LTree → List Nat → Option LTree
  | t, [] => some t
  | .node _ cs, i :: p =>
    match cs[i]? with
    | some c => LTree.sub c p
    | none => none

/-- Snapshot of the node at a path. -/
def LTree.metaAt (t : LTree) (p : List Nat) : Option Meta :=
  (t.sub p).map LTree.meta

/-- The emission gate of Go `(*logger).dolog`, acting on a single snapshot
loaded once: return early when the requested level is above the configured
level, when the level has no appender, or when a rate-limit bucket is
present and yields no token.  The result is whether the record reaches the
appender, together with the snapshot carrying the updated bucket state
(`TakeAvailable` mutates the shared bucket). -/
def dolog (m : Meta) (lv : Level) : Bool × Meta :=
  if m.level.toNat < lv.toNat then (false, m)
  else
    match m.appenders lv with
    | none => (false, m)
    | some _ =>
      match m.limits lv with
      | none => (true, m)
      | some bkt =>
        let r := bkt.takeAvailable 1
        let m' :=
          { m with limits := fun l => if l = lv then some r.2 else m.limits l }
        if r.1 = 0 then (false, m') else (true, m')

/-- Whether `dolog` lets a record at level `lv` reach the appender. -/
def dologEmits (m : Meta) (lv : Level) : Bool :=
  (dolog m lv).1

/-! ### Single-cell snapshot publication (for the torn-read claim)

`logger.meta` is a single pointer cell: every mutating operation copies the
current snapshot, updates the copy, and publishes it with one
`atomic.StorePointer`; `dolog` performs one `atomic.LoadPointer` and uses
that snapshot for the whole emission.  We model the cell as a transition
system whose atomic step is exactly one publish of a fully-constructed
snapshot; the history of published snapshots is recorded so that what a
reader can observe is expressible. -/

/-- A mutating operation on one node's snapshot, as invoked either directly
or by an ancestor cascade reaching the node. -/
inductive MetaOp where
  | lvl (d : Bool) (v : Level)
  | app (d : Bool) (v : Appender) (ls : List Level)
  | fmt (d : Bool) (v : String) (ls : List Level)
  | lmt (d : Bool) (v : Bucket) (ls : List Level)
  | depth (v : Int)

/-- The snapshot an operation publishes (`none`: the operation early-returns
and publishes nothing). -/
def applyOp : MetaOp → Meta → Option Meta
  | .lvl d v, m => setLevelMeta d v m
  | .app d v ls, m => setAppenderMeta d v ls m
  | .fmt d v ls, m => setFormatMeta d v ls m
  | .lmt d v ls, m => setRatelimitMeta d v ls m
  | .depth v, m => some (setCallDepthMeta v m)

/-- The pointer cell of one logger node, together with the history of all
snapshots ever published to it (most recent first). -/
structure Cell where
  current : Meta
  published : List Meta

/-- The cell as constructed for a node: its initial snapshot counts as
published. -/
def Cell.init (m : Meta) : Cell :=
  ⟨m, [m]⟩

/-- One atomic step of the cell: a mutating operation either publishes the
new fully-constructed snapshot with a single pointer store, or
early-returns leaving the cell untouched.  No step exposes a partially
updated snapshot. -/
inductive CellStep : Cell → Cell → Prop
  | publish (c : Cell) (op : MetaOp) (m' : Meta)
      (h : applyOp op c.current = some m') :
      CellStep c ⟨m', m' :: c.published⟩
  | skip (c : Cell) (op : MetaOp) (h : applyOp op c.current = none) :
      CellStep c c

/-- Cells reachable from an initial snapshot by mutating operations. -/
inductive CellReach (m0 : Meta) : Cell → Prop
  | refl : CellReach m0 (Cell.init m0)
  | tail {c c' : Cell} : CellReach m0 c → CellStep c c' → CellReach m0 c'

/-! ### The asynchronous buffered writer (`aio.go`)

Bytes are opaque; we use `Nat`.  The underlying `io.Writer` is modelled by
a list of scripted responses, one consumed per sink `Write` call; an
exhausted script answers like a sink that accepts everything.  The worker
goroutine is run synchronously at each enqueue (one admissible scheduling
of the FIFO channel with its single consumer). -/

/-- Log record bytes. -/
abbrev Byte := Nat

/-- An error value, as latched in the sticky fault cell. -/
inductive Err where
  | shortWrite
  | sinkErr (code : Nat)
deriving DecidableEq, Repr

/-- One scripted response of the underlying writer to a `Write` call:
accept everything, report `n` bytes written with a nil error, or fail. -/
inductive SResp where
  | ok
  | short (n : Nat)
  | fail (e : Err)
deriving DecidableEq, Repr

/-- One `req.w.Write(req.b)` call against the response script: the byte
count and error returned, and the rest of the script. -/
def sinkWrite (resps : List SResp) (b : List Byte) :
    (Nat × Option Err) × List SResp :=
  match resps with
  | [] => ((b.length, none), [])
  | .ok :: rest => ((b.length, none), rest)
  | .short n :: rest => ((min n b.length, none), rest)
  | .fail e :: rest => ((0, some e), rest)

/-- State of one `AIO` instance.  `buf` is the active buffer contents
(`a.buf[:a.n]`), `fault` the sticky error cell, `sink` the scripted
responses of the bound writer, `delivered` the bytes the bound writer has
accepted so far, in order.  `sizePos` records that the buffer capacity is
positive (with capacity 0 the Go `Write` loop would never terminate). -/
structure AIOState where
  size : Nat
  sizePos : 0 < size
  buf : List Byte
  fault : Option Err
  sink : List SResp
  delivered : List Byte

/-- The body of the worker `loop` for one dequeued request carrying data
`b`: skip empty requests; otherwise call the sink, turn a short count with
a nil error into `io.ErrShortWrite`, and on any error store it into the
fault cell (an unconditional `atomic.Value.Store`).  On success the bytes
are appended to what the sink holds; on a short write the accepted prefix
is. -/
def processChunk (s : AIOState) (b : List Byte) : AIOState :=
  if b.isEmpty then s
  else
    let w := sinkWrite s.sink b
    let n := w.1.1
    let e0 := w.1.2
    let err := if n < b.length ∧ e0 = none then some Err.shortWrite else e0
    match err with
    | none => { s with delivered := s.delivered ++ b, sink := w.2 }
    | some e =>
      { s with delivered := s.delivered ++ b.take n, sink := w.2
               fault := some e }

/-- The worker `loop` consuming a FIFO list of queued requests. -/
def loopRun (s : AIOState) : List (List Byte) → AIOState
  | [] => s
  | b :: reqs => loopRun (processChunk s b) reqs

/-- Go `(*AIO).flush` (the private one): enqueue the active buffer and
start afresh with an empty one; the worker processes the request. -/
def flushp (s : AIOState) : AIOState :=
  { processChunk s s.buf with buf := [] }

/-- The `for len(p) > a.Available() && a.haserror() == nil` loop of
Go `(*AIO).Write`, followed by the tail of `Write`: on a sticky fault
return it with the bytes consumed so far; otherwise append the remaining
input (which now fits) to the active buffer and report success. -/
def writeLoop (s : AIOState) (p : List Byte) (nn : Nat) :
    AIOState × Nat × Option Err :=
  if h : s.size - s.buf.length < p.length ∧ s.fault = none then
    writeLoop (flushp { s with buf := s.buf ++ p.take (s.size - s.buf.length) })
      (p.drop (s.size - s.buf.length)) (nn + (s.size - s.buf.length))
  else
    match s.fault with
    | some e => (s, nn, some e)
    | none => ({ s with buf := s.buf ++ p }, nn + p.length, none)
termination_by p.length + s.buf.length
decreasing_by
  simp only [flushp, List.length_drop, List.length_nil]
  have hp := h.1
  have hs := s.sizePos
  omega

/-- Go `(*AIO).Write`. -/
def write (s : AIOState) (p : List Byte) : AIOState × Nat × Option Err :=
  writeLoop s p 0

/-- Go `(*AIO).Flush`: fail fast on a sticky fault; otherwise enqueue the
active buffer (if any) together with a completion signal, wait for the
worker, and return the fault cell's content. -/
def flushOp (s : AIOState) : AIOState × Option Err :=
  match s.fault with
  | some e => (s, some e)
  | none =>
    if s.buf.length ≠ 0 then
      let s1 := { processChunk s s.buf with buf := [] }
      (s1, s1.fault)
    else (s, s.fault)

/-- Go `(*AIO).Reset`: clear the fault cell, drop the buffered bytes, and
bind a new writer (scripted by `newSink`, which starts with an empty
delivery record). -/
def reset (s : AIOState) (newSink : List SResp) : AIOState :=
  { s with fault := none, buf := [], sink := newSink, delivered := [] }

/-- A sequence of `Write` calls, returning the final state and each call's
`(nn, err)` result. -/
def writeAll (s : AIOState) : List (List Byte) → AIOState × List (Nat × Option Err)
  | [] => (s, [])
  | p :: ps =>
    let r := write s p
    let rest := writeAll r.1 ps
    (rest.1, r.2 :: rest.2)

/-- A fresh `AIO` of capacity `size` bound to a writer scripted by
`resps`. -/
def newWriter (size : Nat) (h : 0 < size) (resps : List SResp) : AIOState :=
  ⟨size, h, [], none, resps, []⟩

/-! ### Concrete instances used by scenarios and counterexamples -/

/-- A snapshot with the given level, no detached axis, no appenders,
formats or limits. -/
def mPlain (lv : Level) : Meta :=
  { detach := 0, level := lv, calldepth := 0
    appenders := fun _ => none
    formats := fun _ => none
    limits := fun _ => none }

/-- A node configured at level WARN with an appender and a format for
every level and no rate limits (the level-WARN scenario). -/
def warnMeta : Meta :=
  { detach := 0, level := .WARN, calldepth := 1
    appenders := fun _ => some 0
    formats := fun _ => some "%F %T [%l] %m"
    limits := fun _ => none }

/-- A node that allows ERROR records and rate-limits ERROR with a bucket
holding a single token (the 1-token scenario). -/
def errMeta : Meta :=
  { warnMeta with
    level := .ERROR
    limits := fun l => if l = Level.ERROR then some ⟨1⟩ else none }

/-- A three-level chain: a root at DEBUG, its child at ERROR with the
level axis detached, and a grandchild at TRACE with no detached axis. -/
def c1Tree : LTree :=
  .node (mPlain .DEBUG)
    [.node { mPlain .ERROR with detach := detachlvl }
      [.node (mPlain .TRACE) []]]

/-- A snapshot with every axis detached. -/
def cAll : Meta :=
  { mPlain .ERROR with
    detach := detachlvl ||| detachapp ||| detachfmt ||| detachlmt }

/-- A parent at DEBUG whose only child has every axis detached. -/
def c2Tree : LTree :=
  .node (mPlain .DEBUG) [.node cAll []]

/-- A fresh writer of capacity 4 whose sink fails the first two writes
with two different errors. -/
def c7State : AIOState :=
  newWriter 4 (Nat.succ_pos 3) [.fail (.sinkErr 1), .fail (.sinkErr 2)]

/-! ## Theorems -/

/-- The children loop of `setLevelInternal` is the cascade mapped over the
children. -/
theorem setLevelKids_eq (lv : Level) (cs : List LTree) :
    setLevelKids lv cs = cs.map (setLevelInternal false lv) := by
  induction cs with
  | nil => rfl
  | cons c cs ih => simp [setLevelKids, ih]

/-- The children loop of `setAppenderInternal` is the cascade mapped over
the children. -/
theorem setAppenderKids_eq (a : Appender) (ls : List Level) (cs : List LTree) :
    setAppenderKids a ls cs = cs.map (setAppenderInternal false a ls) := by
  induction cs with
  | nil => rfl
  | cons c cs ih => simp [setAppenderKids, ih]

/-- The children loop of `setFormatInternal` is the cascade mapped over
the children. -/
theorem setFormatKids_eq (f : String) (ls : List Level) (cs : List LTree) :
    setFormatKids f ls cs = cs.map (setFormatInternal false f ls) := by
  induction cs with
  | nil => rfl
  | cons c cs ih => simp [setFormatKids, ih]

/-- The children loop of `setRatelimitInternal` is the cascade mapped over
the children. -/
theorem setRatelimitKids_eq (b : Bucket) (ls : List Level) (cs : List LTree) :
    setRatelimitKids b ls cs = cs.map (setRatelimitInternal false b ls) := by
  induction cs with
  | nil => rfl
  | cons c cs ih => simp [setRatelimitKids, ih]

/-- C9: `New(name)` starts the child from a field-wise copy of the
parent's current snapshot — equal level, appender map, format map (and
rate-limit map) — with every detach flag cleared and the call depth reset
to 0, and appends the child (with no children of its own) to the parent.
Before any explicit configuration on the child, its level, route and
format equal the parent's. -/
theorem c9_new_inherits (m : Meta) (cs : List LTree) :
    (newChildMeta m).level = m.level ∧
    (newChildMeta m).appenders = m.appenders ∧
    (newChildMeta m).formats = m.formats ∧
    (newChildMeta m).limits = m.limits ∧
    (newChildMeta m).detach = 0 ∧
    (newChildMeta m).calldepth = 0 ∧
    newChild (.node m cs) = .node m (cs ++ [.node (newChildMeta m) []]) :=
  ⟨rfl, rfl, rfl, rfl, rfl, rfl, rfl⟩

/-- C5 counterexample: with the node's level set to WARN, a record at
INFO is emitted, because the Go `iota` order is FATAL=0, ERROR=1, INFO=2,
WARN=3, DEBUG=4, TRACE=5, so INFO ≤ WARN numerically; the claim instead
lists INFO among the dropped levels. -/
theorem c5_counterexample :
    dologEmits warnMeta .INFO = true ∧
    Level.INFO.toNat ≤ Level.WARN.toNat := by
  constructor
  · rfl
  · decide

/-- C5 amended: a record at `requestedLevel` is emitted (at a level with
an appender and no rate limit) exactly when `requestedLevel ≤ node.level`
in the order FATAL=0 < ERROR=1 < INFO=2 < WARN=3 < DEBUG=4 < TRACE=5;
with a node's level set to WARN and one emission at each of the six
severities, exactly the records at {FATAL, ERROR, INFO, WARN} reach the
sink and those at {DEBUG, TRACE} are dropped. -/
theorem c5_amended :
    (∀ (m : Meta) (lv : Level), m.limits lv = none →
      (m.appenders lv).isSome →
      dologEmits m lv = decide (lv.toNat ≤ m.level.toNat)) ∧
    allLevels.filter (fun lv => dologEmits warnMeta lv) =
      [.FATAL, .ERROR, .INFO, .WARN] ∧
    allLevels.filter (fun lv => !dologEmits warnMeta lv) =
      [.DEBUG, .TRACE] := by
  refine ⟨?_, rfl, rfl⟩
  intro m lv hlim happ
  unfold dologEmits dolog
  rcases happ' : m.appenders lv with _ | a
  · rw [happ'] at happ
    simp at happ
  · by_cases hlt : m.level.toNat < lv.toNat <;>
      simp [hlt, happ', hlim] <;> omega

/-- C5 amended, witness: instances of the general emission condition at a
WARN-configured node. -/
theorem c5_amended_witness :
    dologEmits warnMeta .ERROR = decide (Level.ERROR.toNat ≤ Level.WARN.toNat) ∧
    dologEmits warnMeta .TRACE = decide (Level.TRACE.toNat ≤ Level.WARN.toNat) :=
  ⟨c5_amended.1 warnMeta .ERROR rfl (by decide),
   c5_amended.1 warnMeta .TRACE rfl (by decide)⟩

/-- C10: when an enabled level has a token bucket, emission takes one
token; with no token available the record is silently dropped (`dolog`
returns with no emission and no error).  With a bucket of one token on
ERROR and no refill between two back-to-back ERROR emissions, exactly the
first reaches the appender. -/
theorem c10_ratelimit :
    (∀ (m : Meta) (lv : Level) (bkt : Bucket), m.limits lv = some bkt →
      bkt.avail = 0 → dologEmits m lv = false) ∧
    (dolog errMeta .ERROR).1 = true ∧
    (dolog (dolog errMeta .ERROR).2 .ERROR).1 = false ∧
    (dolog (dolog errMeta .ERROR).2 .ERROR).2.limits .ERROR = some ⟨0⟩ := by
  refine ⟨?_, rfl, rfl, rfl⟩
  intro m lv bkt hlim hav
  unfold dologEmits dolog
  by_cases hlt : m.level.toNat < lv.toNat
  · simp [hlt]
  · rcases happ : m.appenders lv with _ | a
    · simp [hlt, happ]
    · simp [hlt, happ, hlim, Bucket.takeAvailable, hav]

/-- C10, witness: the general silent-drop fact at a concrete node whose
ERROR bucket is empty. -/
theorem c10_ratelimit_witness :
    dologEmits (dolog errMeta .ERROR).2 .ERROR = false :=
  c10_ratelimit.1 (dolog errMeta .ERROR).2 .ERROR ⟨0⟩ rfl rfl

/-- C3: snapshots are immutable once published; every mutating operation
on a node's pointer cell either publishes one new fully-constructed
snapshot with a single atomic store or leaves the cell untouched, so in
every reachable cell state the snapshot a reader loads (with its single
atomic load) is one of the snapshots published at some point, and a
further step only extends the published history (it never alters or
removes an already-published snapshot). -/
theorem c3_snapshot_publication (m0 : Meta) (c : Cell)
    (h : CellReach m0 c) :
    c.current ∈ c.published ∧
    ∀ c', CellStep c c' → c.published.IsSuffix c'.published := by
  constructor
  · induction h with
    | refl => exact List.mem_singleton.mpr rfl
    | tail hr hs ih =>
      cases hs with
      | publish op m' hpub => exact List.mem_cons_self _ _
      | skip op hskip => exact ih
  · intro c' hs
    cases hs with
    | publish op m' hpub => exact List.suffix_cons _ _
    | skip op hskip => exact List.suffix_refl _

/-- C3, witness: the invariant at a freshly initialised cell. -/
theorem c3_snapshot_publication_witness :
    (Cell.init warnMeta).current ∈ (Cell.init warnMeta).published :=
  (c3_snapshot_publication warnMeta (Cell.init warnMeta) .refl).1

/-- Reading the snapshot of an inner node of a tree. -/
theorem metaAt_cons (m : Meta) (cs : List LTree) (i : Nat) (p : List Nat) :
    (LTree.node m cs).metaAt (i :: p) =
      match cs[i]? with
      | some c => c.metaAt p
      | none => none := by
  rcases hcs : cs[i]? with _ | c <;>
    simp [LTree.metaAt, LTree.sub, hcs]

/-- A cascade of `SetLevel` leaves a node with a detached level axis — and
with it the node's whole subtree — completely unchanged, so the snapshot
of every node at or below the detached one is preserved. -/
theorem cascadeLevel_preserves (lv : Level) :
    ∀ (p : List Nat) (t : LTree) (m : Meta),
      t.metaAt p = some m → m.detach &&& detachlvl ≠ 0 →
      (setLevelInternal false lv t).metaAt p = some m := by
  intro p
  induction p with
  | nil =>
    intro t m hm hd
    cases t with
    | node mr cs =>
      simp [LTree.metaAt, LTree.sub, LTree.meta] at hm
      subst hm
      simp [setLevelInternal, setLevelMeta, hd, LTree.metaAt, LTree.sub,
        LTree.meta]
  | cons i p ih =>
    intro t m hm hd
    cases t with
    | node mr cs =>
      rw [metaAt_cons] at hm
      rcases hcs : cs[i]? with _ | c
      · rw [hcs] at hm
        exact absurd hm (by simp)
      · rw [hcs] at hm
        by_cases hroot : mr.detach &&& detachlvl ≠ 0
        · simp only [setLevelInternal, setLevelMeta, if_neg Bool.false_ne_true]
          rw [if_pos hroot]
          show (LTree.node mr cs).metaAt (i :: p) = some m
          rw [metaAt_cons, hcs]
          exact hm
        · simp only [setLevelInternal, setLevelMeta, if_neg Bool.false_ne_true]
          rw [if_neg hroot]
          show (LTree.node { mr with level := lv }
            (setLevelKids lv cs)).metaAt (i :: p) = some m
          rw [metaAt_cons, setLevelKids_eq, List.getElem?_map, hcs]
          exact ih c m hm hd

/-- A cascade of `SetAppender` leaves a node with a detached appender axis
— and with it the node's whole subtree — completely unchanged. -/
theorem cascadeAppender_preserves (a : Appender) (ls : List Level) :
    ∀ (p : List Nat) (t : LTree) (m : Meta),
      t.metaAt p = some m → m.detach &&& detachapp ≠ 0 →
      (setAppenderInternal false a ls t).metaAt p = some m := by
  intro p
  induction p with
  | nil =>
    intro t m hm hd
    cases t with
    | node mr cs =>
      simp [LTree.metaAt, LTree.sub, LTree.meta] at hm
      subst hm
      simp [setAppenderInternal, setAppenderMeta, hd, LTree.metaAt,
        LTree.sub, LTree.meta]
  | cons i p ih =>
    intro t m hm hd
    cases t with
    | node mr cs =>
      rw [metaAt_cons] at hm
      rcases hcs : cs[i]? with _ | c
      · rw [hcs] at hm
        exact absurd hm (by simp)
      · rw [hcs] at hm
        by_cases hroot : mr.detach &&& detachapp ≠ 0
        · simp only [setAppenderInternal, setAppenderMeta,
            if_neg Bool.false_ne_true]
          rw [if_pos hroot]
          show (LTree.node mr cs).metaAt (i :: p) = some m
          rw [metaAt_cons, hcs]
          exact hm
        · simp only [setAppenderInternal, setAppenderMeta,
            if_neg Bool.false_ne_true]
          rw [if_neg hroot]
          show (LTree.node
            { mr with appenders := newMapAxis mr.appenders a ls }
            (setAppenderKids a ls cs)).metaAt (i :: p) = some m
          rw [metaAt_cons, setAppenderKids_eq, List.getElem?_map, hcs]
          exact ih c m hm hd

/-- A cascade of `SetFormat` leaves a node with a detached format axis —
and with it the node's whole subtree — completely unchanged. -/
theorem cascadeFormat_preserves (f : String) (ls : List Level) :
    ∀ (p : List Nat) (t : LTree) (m : Meta),
      t.metaAt p = some m → m.detach &&& detachfmt ≠ 0 →
      (setFormatInternal false f ls t).metaAt p = some m := by
  intro p
  induction p with
  | nil =>
    intro t m hm hd
    cases t with
    | node mr cs =>
      simp [LTree.metaAt, LTree.sub, LTree.meta] at hm
      subst hm
      simp [setFormatInternal, setFormatMeta, hd, LTree.metaAt,
        LTree.sub, LTree.meta]
  | cons i p ih =>
    intro t m hm hd
    cases t with
    | node mr cs =>
      rw [metaAt_cons] at hm
      rcases hcs : cs[i]? with _ | c
      · rw [hcs] at hm
        exact absurd hm (by simp)
      · rw [hcs] at hm
        by_cases hroot : mr.detach &&& detachfmt ≠ 0
        · simp only [setFormatInternal, setFormatMeta,
            if_neg Bool.false_ne_true]
          rw [if_pos hroot]
          show (LTree.node mr cs).metaAt (i :: p) = some m
          rw [metaAt_cons, hcs]
          exact hm
        · simp only [setFormatInternal, setFormatMeta,
            if_neg Bool.false_ne_true]
          rw [if_neg hroot]
          show (LTree.node
            { mr with formats := newMapAxis mr.formats f ls }
            (setFormatKids f ls cs)).metaAt (i :: p) = some m
          rw [metaAt_cons, setFormatKids_eq, List.getElem?_map, hcs]
          exact ih c m hm hd

/-- A cascade of `SetRatelimit` leaves a node with a detached rate-limit
axis — and with it the node's whole subtree — completely unchanged. -/
theorem cascadeRatelimit_preserves (b : Bucket) (ls : List Level) :
    ∀ (p : List Nat) (t : LTree) (m : Meta),
      t.metaAt p = some m → m.detach &&& detachlmt ≠ 0 →
      (setRatelimitInternal false b ls t).metaAt p = some m := by
  intro p
  induction p with
  | nil =>
    intro t m hm hd
    cases t with
    | node mr cs =>
      simp [LTree.metaAt, LTree.sub, LTree.meta] at hm
      subst hm
      simp [setRatelimitInternal, setRatelimitMeta, hd, LTree.metaAt,
        LTree.sub, LTree.meta]
  | cons i p ih =>
    intro t m hm hd
    cases t with
    | node mr cs =>
      rw [metaAt_cons] at hm
      rcases hcs : cs[i]? with _ | c
      · rw [hcs] at hm
        exact absurd hm (by simp)
      · rw [hcs] at hm
        by_cases hroot : mr.detach &&& detachlmt ≠ 0
        · simp only [setRatelimitInternal, setRatelimitMeta,
            if_neg Bool.false_ne_true]
          rw [if_pos hroot]
          show (LTree.node mr cs).metaAt (i :: p) = some m
          rw [metaAt_cons, hcs]
          exact hm
        · simp only [setRatelimitInternal, setRatelimitMeta,
            if_neg Bool.false_ne_true]
          rw [if_neg hroot]
          show (LTree.node
            { mr with limits := newMapAxis mr.limits b ls }
            (setRatelimitKids b ls cs)).metaAt (i :: p) = some m
          rw [metaAt_cons, setRatelimitKids_eq, List.getElem?_map, hcs]
          exact ih c m hm hd

/-- C2: for every node N and every axis (level, appender route, format,
rate limit), once N's axis is detached — which is exactly the state after
a mutating operation for that axis ran directly on N — no operation for
that axis invoked on an ancestor of N (any node of which N is a strict
descendant, at path `i :: p`), in either detach mode and with any value,
changes N's snapshot: the cascade reaching N stops at it. -/
theorem c2_detach_sticky :
    (∀ (d : Bool) (lv : Level) (t : LTree) (i : Nat) (p : List Nat)
        (m : Meta), t.metaAt (i :: p) = some m →
        m.detach &&& detachlvl ≠ 0 →
        (setLevelInternal d lv t).metaAt (i :: p) = some m) ∧
    (∀ (d : Bool) (a : Appender) (ls : List Level) (t : LTree) (i : Nat)
        (p : List Nat) (m : Meta), t.metaAt (i :: p) = some m →
        m.detach &&& detachapp ≠ 0 →
        (setAppenderInternal d a ls t).metaAt (i :: p) = some m) ∧
    (∀ (d : Bool) (f : String) (ls : List Level) (t : LTree) (i : Nat)
        (p : List Nat) (m : Meta), t.metaAt (i :: p) = some m →
        m.detach &&& detachfmt ≠ 0 →
        (setFormatInternal d f ls t).metaAt (i :: p) = some m) ∧
    (∀ (d : Bool) (b : Bucket) (ls : List Level) (t : LTree) (i : Nat)
        (p : List Nat) (m : Meta), t.metaAt (i :: p) = some m →
        m.detach &&& detachlmt ≠ 0 →
        (setRatelimitInternal d b ls t).metaAt (i :: p) = some m) := by
  refine ⟨?_, ?_, ?_, ?_⟩
  · intro d lv t i p m hm hd
    cases t with
    | node mr cs =>
      rw [metaAt_cons] at hm
      rcases hcs : cs[i]? with _ | c
      · rw [hcs] at hm
        exact absurd hm (by simp)
      · rw [hcs] at hm
        simp only [setLevelInternal]
        rcases hsm : setLevelMeta d lv mr with _ | m2
        · show (LTree.node mr cs).metaAt (i :: p) = some m
          rw [metaAt_cons, hcs]
          exact hm
        · show (LTree.node m2 (setLevelKids lv cs)).metaAt (i :: p) = some m
          rw [metaAt_cons, setLevelKids_eq, List.getElem?_map, hcs]
          exact cascadeLevel_preserves lv p c m hm hd
  · intro d a ls t i p m hm hd
    cases t with
    | node mr cs =>
      rw [metaAt_cons] at hm
      rcases hcs : cs[i]? with _ | c
      · rw [hcs] at hm
        exact absurd hm (by simp)
      · rw [hcs] at hm
        simp only [setAppenderInternal]
        rcases hsm : setAppenderMeta d a ls mr with _ | m2
        · show (LTree.node mr cs).metaAt (i :: p) = some m
          rw [metaAt_cons, hcs]
          exact hm
        · show (LTree.node m2 (setAppenderKids a ls cs)).metaAt (i :: p) =
            some m
          rw [metaAt_cons, setAppenderKids_eq, List.getElem?_map, hcs]
          exact cascadeAppender_preserves a ls p c m hm hd
  · intro d f ls t i p m hm hd
    cases t with
    | node mr cs =>
      rw [metaAt_cons] at hm
      rcases hcs : cs[i]? with _ | c
      · rw [hcs] at hm
        exact absurd hm (by simp)
      · rw [hcs] at hm
        simp only [setFormatInternal]
        rcases hsm : setFormatMeta d f ls mr with _ | m2
        · show (LTree.node mr cs).metaAt (i :: p) = some m
          rw [metaAt_cons, hcs]
          exact hm
        · show (LTree.node m2 (setFormatKids f ls cs)).metaAt (i :: p) =
            some m
          rw [metaAt_cons, setFormatKids_eq, List.getElem?_map, hcs]
          exact cascadeFormat_preserves f ls p c m hm hd
  · intro d b ls t i p m hm hd
    cases t with
    | node mr cs =>
      rw [metaAt_cons] at hm
      rcases hcs : cs[i]? with _ | c
      · rw [hcs] at hm
        exact absurd hm (by simp)
      · rw [hcs] at hm
        simp only [setRatelimitInternal]
        rcases hsm : setRatelimitMeta d b ls mr with _ | m2
        · show (LTree.node mr cs).metaAt (i :: p) = some m
          rw [metaAt_cons, hcs]
          exact hm
        · show (LTree.node m2 (setRatelimitKids b ls cs)).metaAt (i :: p) =
            some m
          rw [metaAt_cons, setRatelimitKids_eq, List.getElem?_map, hcs]
          exact cascadeRatelimit_preserves b ls p c m hm hd

/-- C2, witness: on a parent whose only child has every axis detached,
direct mutations of all four axes on the parent leave the child's
snapshot untouched. -/
theorem c2_detach_sticky_witness :
    (setLevelInternal true .WARN c2Tree).metaAt [0] = some cAll ∧
    (setAppenderInternal true 7 [] c2Tree).metaAt [0] = some cAll ∧
    (setFormatInternal true "%m" [] c2Tree).metaAt [0] = some cAll ∧
    (setRatelimitInternal true ⟨5⟩ [] c2Tree).metaAt [0] = some cAll :=
  ⟨c2_detach_sticky.1 true .WARN c2Tree 0 [] cAll rfl (by decide),
   c2_detach_sticky.2.1 true 7 [] c2Tree 0 [] cAll rfl (by decide),
   c2_detach_sticky.2.2.1 true "%m" [] c2Tree 0 [] cAll rfl (by decide),
   c2_detach_sticky.2.2.2 true ⟨5⟩ [] c2Tree 0 [] cAll rfl (by decide)⟩

/-- C1 counterexample: in a chain root → child (level axis detached) →
grandchild (no axis detached, level TRACE), `SetLevel WARN` on the root
leaves the grandchild at TRACE: the cascade early-returns at the detached
child without visiting the child's descendants, even though the
grandchild's own detach flags would allow the update.  The claim instead
says the descendants are still visited and updated per their own flags. -/
theorem c1_counterexample :
    ((setLevelInternal true .WARN c1Tree).metaAt [0, 0]).map Meta.level =
      some .TRACE ∧
    (c1Tree.metaAt [0, 0]).map (fun m => m.detach &&& detachlvl) = some 0 ∧
    Level.TRACE ≠ Level.WARN :=
  ⟨rfl, rfl, by decide⟩

/-- C1 amended: when a configuration change (SetLevel / SetAppender /
SetFormat / SetRatelimit) cascades from an ancestor node, every child is
invoked in cascade mode; a child whose corresponding axis is detached
keeps its own value for that axis and the cascade stops there — the
child's descendants are not visited, the entire subtree is unchanged —
while a child whose axis is not detached has that axis updated and the
cascade continues into its own children. -/
theorem c1_cascade_stops_at_detached :
    (∀ (lv : Level) (m : Meta) (cs : List LTree),
      (setLevelInternal true lv (.node m cs)).kids =
        cs.map (setLevelInternal false lv)) ∧
    (∀ (lv : Level) (t : LTree), t.meta.detach &&& detachlvl ≠ 0 →
      setLevelInternal false lv t = t) ∧
    (∀ (lv : Level) (t : LTree), t.meta.detach &&& detachlvl = 0 →
      (setLevelInternal false lv t).meta.level = lv ∧
      (setLevelInternal false lv t).kids =
        t.kids.map (setLevelInternal false lv)) ∧
    (∀ (a : Appender) (ls : List Level) (m : Meta) (cs : List LTree),
      (setAppenderInternal true a ls (.node m cs)).kids =
        cs.map (setAppenderInternal false a ls)) ∧
    (∀ (a : Appender) (ls : List Level) (t : LTree),
      t.meta.detach &&& detachapp ≠ 0 →
      setAppenderInternal false a ls t = t) ∧
    (∀ (a : Appender) (ls : List Level) (t : LTree),
      t.meta.detach &&& detachapp = 0 →
      (setAppenderInternal false a ls t).meta.appenders =
        newMapAxis t.meta.appenders a ls ∧
      (setAppenderInternal false a ls t).kids =
        t.kids.map (setAppenderInternal false a ls)) ∧
    (∀ (f : String) (ls : List Level) (m : Meta) (cs : List LTree),
      (setFormatInternal true f ls (.node m cs)).kids =
        cs.map (setFormatInternal false f ls)) ∧
    (∀ (f : String) (ls : List Level) (t : LTree),
      t.meta.detach &&& detachfmt ≠ 0 →
      setFormatInternal false f ls t = t) ∧
    (∀ (f : String) (ls : List Level) (t : LTree),
      t.meta.detach &&& detachfmt = 0 →
      (setFormatInternal false f ls t).meta.formats =
        newMapAxis t.meta.formats f ls ∧
      (setFormatInternal false f ls t).kids =
        t.kids.map (setFormatInternal false f ls)) ∧
    (∀ (b : Bucket) (ls : List Level) (m : Meta) (cs : List LTree),
      (setRatelimitInternal true b ls (.node m cs)).kids =
        cs.map (setRatelimitInternal false b ls)) ∧
    (∀ (b : Bucket) (ls : List Level) (t : LTree),
      t.meta.detach &&& detachlmt ≠ 0 →
      setRatelimitInternal false b ls t = t) ∧
    (∀ (b : Bucket) (ls : List Level) (t : LTree),
      t.meta.detach &&& detachlmt = 0 →
      (setRatelimitInternal false b ls t).meta.limits =
        newMapAxis t.meta.limits b ls ∧
      (setRatelimitInternal false b ls t).kids =
        t.kids.map (setRatelimitInternal false b ls)) := by
  refine ⟨?_, ?_, ?_, ?_, ?_, ?_, ?_, ?_, ?_, ?_, ?_, ?_⟩
  · intro lv m cs
    simp [setLevelInternal, setLevelMeta, LTree.kids, setLevelKids_eq]
  · intro lv t hd
    cases t with
    | node mr cs =>
      simp only [LTree.meta] at hd
      simp [setLevelInternal, setLevelMeta, hd]
  · intro lv t hd
    cases t with
    | node mr cs =>
      simp only [LTree.meta] at hd
      simp [setLevelInternal, setLevelMeta, hd, LTree.meta, LTree.kids,
        setLevelKids_eq]
  · intro a ls m cs
    simp [setAppenderInternal, setAppenderMeta, LTree.kids,
      setAppenderKids_eq]
  · intro a ls t hd
    cases t with
    | node mr cs =>
      simp only [LTree.meta] at hd
      simp [setAppenderInternal, setAppenderMeta, hd]
  · intro a ls t hd
    cases t with
    | node mr cs =>
      simp only [LTree.meta] at hd
      simp [setAppenderInternal, setAppenderMeta, hd, LTree.meta,
        LTree.kids, setAppenderKids_eq]
  · intro f ls m cs
    simp [setFormatInternal, setFormatMeta, LTree.kids, setFormatKids_eq]
  · intro f ls t hd
    cases t with
    | node mr cs =>
      simp only [LTree.meta] at hd
      simp [setFormatInternal, setFormatMeta, hd]
  · intro f ls t hd
    cases t with
    | node mr cs =>
      simp only [LTree.meta] at hd
      simp [setFormatInternal, setFormatMeta, hd, LTree.meta, LTree.kids,
        setFormatKids_eq]
  · intro b ls m cs
    simp [setRatelimitInternal, setRatelimitMeta, LTree.kids,
      setRatelimitKids_eq]
  · intro b ls t hd
    cases t with
    | node mr cs =>
      simp only [LTree.meta] at hd
      simp [setRatelimitInternal, setRatelimitMeta, hd]
  · intro b ls t hd
    cases t with
    | node mr cs =>
      simp only [LTree.meta] at hd
      simp [setRatelimitInternal, setRatelimitMeta, hd, LTree.meta,
        LTree.kids, setRatelimitKids_eq]

/-- C1 amended, witness: on the detached child of the counterexample
chain a level cascade is the identity on the whole subtree, and on its
non-detached grandchild a level cascade sets the level. -/
theorem c1_cascade_stops_at_detached_witness :
    setLevelInternal false .WARN
        (.node { mPlain .ERROR with detach := detachlvl }
          [.node (mPlain .TRACE) []]) =
      .node { mPlain .ERROR with detach := detachlvl }
        [.node (mPlain .TRACE) []] ∧
    (setLevelInternal false .WARN
        (.node (mPlain .TRACE) [])).meta.level = .WARN :=
  ⟨c1_cascade_stops_at_detached.2.1 .WARN
      (.node { mPlain .ERROR with detach := detachlvl }
        [.node (mPlain .TRACE) []]) (by decide),
   (c1_cascade_stops_at_detached.2.2.1 .WARN
      (.node (mPlain .TRACE) []) (by decide)).1⟩

/-- Against a sink with no scripted response left (which accepts every
write in full), the worker body appends the chunk to the delivered bytes
and changes nothing else. -/
theorem processChunk_oksink (s : AIOState) (b : List Byte)
    (h : s.sink = []) :
    processChunk s b = { s with delivered := s.delivered ++ b } := by
  obtain ⟨sz, hp, buf, fault, sink, delivered⟩ := s
  simp only at h
  subst h
  cases b with
  | nil => simp [processChunk]
  | cons x xs => simp [processChunk, sinkWrite]

/-- A `Write` call on an instance with a latched fault returns the fault
and zero bytes written, leaving the state untouched. -/
theorem write_of_fault (s : AIOState) (p : List Byte) (e : Err)
    (h : s.fault = some e) : write s p = (s, 0, some e) := by
  rw [write, writeLoop]
  simp [h]

/-- A `Flush` call on an instance with a latched fault returns the fault,
leaving the state untouched. -/
theorem flushOp_of_fault (s : AIOState) (e : Err)
    (h : s.fault = some e) : flushOp s = (s, some e) := by
  rw [flushOp, h]

/-- The `Write` loop against a sink that accepts everything: no error is
ever latched, the written count is the full input length, and the bytes
delivered so far followed by the bytes still buffered are exactly the
bytes delivered or buffered before followed by the input. -/
theorem writeLoop_ok :
    ∀ (s : AIOState) (p : List Byte) (nn : Nat),
      s.fault = none → s.sink = [] →
      (writeLoop s p nn).1.delivered ++ (writeLoop s p nn).1.buf =
        s.delivered ++ s.buf ++ p ∧
      (writeLoop s p nn).1.fault = none ∧
      (writeLoop s p nn).1.sink = [] ∧
      (writeLoop s p nn).2 = (nn + p.length, none) := by
  intro s p nn
  induction s, p, nn using writeLoop.induct with
  | case1 s p nn h ih =>
    intro hf hs
    have hpc : processChunk { s with
        buf := s.buf ++ p.take (s.size - s.buf.length) }
        (s.buf ++ p.take (s.size - s.buf.length)) =
        { s with buf := s.buf ++ p.take (s.size - s.buf.length)
                 delivered := s.delivered ++
                   (s.buf ++ p.take (s.size - s.buf.length)) } :=
      processChunk_oksink _ _ hs
    have hs1 : flushp { s with
        buf := s.buf ++ p.take (s.size - s.buf.length) } =
        { s with buf := []
                 delivered := s.delivered ++
                   (s.buf ++ p.take (s.size - s.buf.length)) } := by
      rw [flushp]
      rw [hpc]
    rw [writeLoop, dif_pos h, hs1]
    rw [hs1] at ih
    obtain ⟨ih1, ih2, ih3, ih4⟩ := ih hf hs
    refine ⟨?_, ih2, ih3, ?_⟩
    · rw [ih1]
      simp [List.append_assoc]
    · rw [ih4]
      have hc : s.size - s.buf.length ≤ p.length := Nat.le_of_lt h.1
      simp [List.length_drop]
      omega
  | case2 s p nn h e hsome =>
    intro hf hs
    rw [hf] at hsome
    exact absurd hsome (by simp)
  | case3 s p nn h hnone =>
    intro hf hs
    rw [writeLoop, dif_neg h]
    rw [hnone]
    exact ⟨by simp [List.append_assoc], rfl, hs, rfl⟩

/-- A sequence of `Write` calls against a sink that accepts everything:
every call reports its full input length with no error, and the bytes
delivered plus the bytes still buffered are the previous contents followed
by all the inputs in submission order. -/
theorem writeAll_ok :
    ∀ (ps : List (List Byte)) (s : AIOState),
      s.fault = none → s.sink = [] →
      (writeAll s ps).1.delivered ++ (writeAll s ps).1.buf =
        s.delivered ++ s.buf ++ ps.flatten ∧
      (writeAll s ps).1.fault = none ∧
      (writeAll s ps).1.sink = [] ∧
      (writeAll s ps).2 = ps.map (fun p => (p.length, none)) := by
  intro ps
  induction ps with
  | nil =>
    intro s hf hs
    exact ⟨by simp [writeAll], hf, hs, by simp [writeAll]⟩
  | cons p ps ih =>
    intro s hf hs
    obtain ⟨h1, h2, h3, h4⟩ := writeLoop_ok s p 0 hf hs
    obtain ⟨g1, g2, g3, g4⟩ := ih (writeLoop s p 0).1 h2 h3
    simp only [writeAll, write]
    refine ⟨?_, g2, g3, ?_⟩
    · calc (writeAll (writeLoop s p 0).1 ps).1.delivered ++
            (writeAll (writeLoop s p 0).1 ps).1.buf
          = (writeLoop s p 0).1.delivered ++ (writeLoop s p 0).1.buf ++
            ps.flatten := g1
        _ = s.delivered ++ s.buf ++ p ++ ps.flatten := by rw [h1]
        _ = s.delivered ++ s.buf ++ (p :: ps).flatten := by
            simp [List.append_assoc]
    · rw [h4, g4]
      simp

/-- `Flush` on an instance with no fault and an all-accepting sink
delivers the buffered bytes and reports no error. -/
theorem flushOp_ok (s : AIOState) (hf : s.fault = none)
    (hs : s.sink = []) :
    flushOp s =
      ({ s with buf := [], delivered := s.delivered ++ s.buf }, none) := by
  obtain ⟨sz, hp, buf, fault, sink, delivered⟩ := s
  simp only at hf hs
  subst hf
  subst hs
  by_cases hb : buf.length ≠ 0
  · simp only [flushOp]
    rw [if_pos hb, processChunk_oksink _ _ rfl]
  · have hnil : buf = [] := List.length_eq_zero.mp (by omega)
    subst hnil
    simp [flushOp]

/-- C4: for any buffer capacity and any sequence of `Write` calls followed
by a `Flush`, against a sink that never errors, the bytes delivered to the
sink in delivery order are exactly the concatenation of the inputs in call
order (however they split across buffer-capacity boundaries), each `Write`
reports the full length of its input with no error, and the `Flush`
reports no error. -/
theorem c4_roundtrip (size : Nat) (hsz : 0 < size) (ps : List (List Byte)) :
    (flushOp (writeAll (newWriter size hsz []) ps).1).1.delivered =
      ps.flatten ∧
    (writeAll (newWriter size hsz []) ps).2 =
      ps.map (fun p => (p.length, none)) ∧
    (flushOp (writeAll (newWriter size hsz []) ps).1).2 = none := by
  obtain ⟨h1, h2, h3, h4⟩ := writeAll_ok ps (newWriter size hsz []) rfl rfl
  rw [flushOp_ok _ h2 h3]
  refine ⟨?_, h4, rfl⟩
  show (writeAll (newWriter size hsz []) ps).1.delivered ++
    (writeAll (newWriter size hsz []) ps).1.buf = ps.flatten
  rw [h1]
  simp [newWriter]

/-- C4, witness: capacity 2, inputs of lengths 3 and 1 (so the first
input alone overflows the buffer), round-trip exactly. -/
theorem c4_roundtrip_witness :
    (flushOp (writeAll (newWriter 2 (Nat.succ_pos 1) [])
        [[10, 11, 12], [13]]).1).1.delivered = [10, 11, 12, 13] ∧
    (writeAll (newWriter 2 (Nat.succ_pos 1) []) [[10, 11, 12], [13]]).2 =
      [(3, none), (1, none)] ∧
    (flushOp (writeAll (newWriter 2 (Nat.succ_pos 1) [])
        [[10, 11, 12], [13]]).1).2 = none :=
  c4_roundtrip 2 (Nat.succ_pos 1) [[10, 11, 12], [13]]

/-- C6: with a fault latched, every `Write` returns that fault having
written nothing (the state is unchanged) and every `Flush` returns that
fault; `Reset` clears the fault, discards the unflushed buffered bytes
and rebinds the sink (whose delivery record starts empty), after which
writes succeed again, buffering or delivering exactly the new input. -/
theorem c6_sticky_until_reset :
    (∀ (s : AIOState) (p : List Byte) (e : Err), s.fault = some e →
      write s p = (s, 0, some e)) ∧
    (∀ (s : AIOState) (e : Err), s.fault = some e →
      flushOp s = (s, some e)) ∧
    (∀ (s : AIOState) (ns : List SResp), (reset s ns).fault = none ∧
      (reset s ns).buf = [] ∧ (reset s ns).sink = ns ∧
      (reset s ns).delivered = []) ∧
    (∀ (s : AIOState) (q : List Byte),
      (write (reset s []) q).2 = (q.length, none) ∧
      (write (reset s []) q).1.delivered ++ (write (reset s []) q).1.buf =
        q) := by
  refine ⟨write_of_fault, flushOp_of_fault, fun s ns => ⟨rfl, rfl, rfl, rfl⟩,
    fun s q => ?_⟩
  obtain ⟨h1, h2, h3, h4⟩ := writeLoop_ok (reset s []) q 0 rfl rfl
  refine ⟨?_, ?_⟩
  · rw [write, h4]
    simp
  · rw [write, h1]
    rfl

/-- C6, witness: a concrete faulted instance returns its fault from
`Write` and `Flush`, and recovers after `Reset`. -/
theorem c6_sticky_until_reset_witness :
    write { newWriter 4 (Nat.succ_pos 3) [] with fault := some (.sinkErr 9) }
        [1, 2] =
      ({ newWriter 4 (Nat.succ_pos 3) [] with fault := some (.sinkErr 9) }, 0,
        some (.sinkErr 9)) ∧
    (write (reset { newWriter 4 (Nat.succ_pos 3) [] with
        fault := some (.sinkErr 9) } []) [1, 2]).2 = (2, none) :=
  ⟨c6_sticky_until_reset.1 _ [1, 2] (.sinkErr 9) rfl,
   (c6_sticky_until_reset.2.2.2 _ [1, 2]).1⟩

/-- C7 counterexample: two queued flush requests whose sink writes fail
with different errors; the worker's unconditional `fault.Store` leaves the
second error in the fault cell, not the first one the claim promises. -/
theorem c7_counterexample :
    (loopRun c7State [[10], [11]]).fault = some (.sinkErr 2) ∧
    Err.sinkErr 2 ≠ Err.sinkErr 1 :=
  ⟨rfl, by decide⟩

/-- C7 amended: the worker latches every error into the sticky fault cell
with an unconditional store, so an error from a later flush request
overwrites an earlier one (the last error wins): after two flush requests
whose sink writes fail with different errors, the fault reported by
`Write` and `Flush` is the second error. -/
theorem c7_last_error_wins :
    (∀ (s : AIOState) (b : List Byte) (e : Err) (rest : List SResp),
      b ≠ [] → s.sink = SResp.fail e :: rest →
      (processChunk s b).fault = some e ∧ (processChunk s b).sink = rest) ∧
    (loopRun c7State [[10], [11]]).fault = some (.sinkErr 2) ∧
    (∀ (p : List Byte),
      (write (loopRun c7State [[10], [11]]) p).2.2 = some (.sinkErr 2)) ∧
    (flushOp (loopRun c7State [[10], [11]])).2 = some (.sinkErr 2) := by
  refine ⟨?_, rfl, ?_, ?_⟩
  · intro s b e rest hb hsink
    rw [processChunk, if_neg (by simp [hb]), hsink]
    simp [sinkWrite]
  · intro p
    rw [write_of_fault _ p (.sinkErr 2) rfl]
  · rw [flushOp_of_fault _ (.sinkErr 2) rfl]

/-- C7 amended, witness: the error-latching fact at a concrete state, the
worker consuming the scripted failure. -/
theorem c7_last_error_wins_witness :
    (processChunk c7State [10]).fault = some (.sinkErr 1) ∧
    (processChunk c7State [10]).sink = [.fail (.sinkErr 2)] :=
  c7_last_error_wins.1 c7State [10] (.sinkErr 1) [.fail (.sinkErr 2)]
    (by decide) rfl

/-- C8: a sink `Write` that reports fewer bytes than the submitted chunk
together with a nil error is latched as `io.ErrShortWrite` in the sticky
fault cell, exactly as an explicit sink error would be: subsequent `Write`
and `Flush` calls return it. -/
theorem c8_short_write :
    (∀ (s : AIOState) (b : List Byte) (n : Nat) (rest : List SResp),
      b ≠ [] → s.sink = SResp.short n :: rest → n < b.length →
      (processChunk s b).fault = some .shortWrite) ∧
    (∀ (s : AIOState) (b p : List Byte) (n : Nat) (rest : List SResp),
      b ≠ [] → s.sink = SResp.short n :: rest → n < b.length →
      (write (processChunk s b) p).2.2 = some .shortWrite ∧
      (flushOp (processChunk s b)).2 = some .shortWrite) := by
  have hlat : ∀ (s : AIOState) (b : List Byte) (n : Nat) (rest : List SResp),
      b ≠ [] → s.sink = SResp.short n :: rest → n < b.length →
      (processChunk s b).fault = some .shortWrite := by
    intro s b n rest hb hsink hn
    rw [processChunk, if_neg (by simp [hb]), hsink]
    simp only [sinkWrite]
    have hmin : min n b.length < b.length := by omega
    simp [hmin]
  refine ⟨hlat, ?_⟩
  intro s b p n rest hb hsink hn
  constructor
  · rw [write_of_fault _ p .shortWrite (hlat s b n rest hb hsink hn)]
  · rw [flushOp_of_fault _ .shortWrite (hlat s b n rest hb hsink hn)]

/-- C8, witness: a scripted short write (1 byte accepted of 2) latches
`io.ErrShortWrite` and a later `Flush` reports it. -/
theorem c8_short_write_witness :
    (processChunk (newWriter 3 (Nat.succ_pos 2) [.short 1]) [7, 8]).fault =
      some .shortWrite ∧
    (flushOp (processChunk (newWriter 3 (Nat.succ_pos 2) [.short 1])
        [7, 8])).2 = some .shortWrite :=
  ⟨c8_short_write.1 (newWriter 3 (Nat.succ_pos 2) [.short 1]) [7, 8] 1 []
      (by decide) rfl (by decide),
   (c8_short_write.2 (newWriter 3 (Nat.succ_pos 2) [.short 1]) [7, 8] [] 1 []
      (by decide) rfl (by decide)).2⟩

end LogSpec
